import Mathlib

/-!
Verification development for the `SparseMatrix` Python class in
`src/dsa/sparse_matrix/code/src/sparse.py`.

Modelling decisions (shallow embedding):

* A Python `dict` is modelled as an ordered association list (`List (κ × β)`):
  lookup returns the first (and, under the insertion discipline below, only)
  binding of a key; insertion updates an existing binding in place and appends
  a fresh key at the end, exactly like CPython dict insertion order.
* Python strings are modelled as `List Char` (`PyStr`); a file's content is a
  `List PyStr`, one element per line, without the trailing newline characters
  (`int` and `str.strip` both discard surrounding whitespace, so dropping the
  newline is faithful).
* Python integers are unbounded, hence `Int`.  `int(s)` is modelled by
  `pyInt?` (strip whitespace, optional sign, then decimal digits; the rarely
  used underscore separators and non-ASCII digits of CPython are not
  modelled, no claim exercises them).
* Exceptions become `Except String` / `Option`: `load_matrix` wraps any
  failure into `ValueError("Input file has wrong format: ...")`, which we
  model as a single `.error` value; `multiply`'s dimension check raises
  `ValueError`, modelled as `.error` with the source's message.
-/

namespace SparseSpec

/-- A Python string, modelled as its list of characters. -/
abbrev PyStr := List Char

/-- Lookup in an ordered association list: `d.get(k)`-style first match. -/
def alistGet {κ β : Type} [DecidableEq κ] (l : List (κ × β)) (k : κ) : Option β :=
  match l with
  | [] => none
  | (k', v) :: rest => if k' = k then some v else alistGet rest k

/-- Insertion into an ordered association list with Python `dict` semantics:
an existing key is updated in place, a new key is appended at the end. -/
def alistSet {κ β : Type} [DecidableEq κ] (l : List (κ × β)) (k : κ) (v : β) :
    List (κ × β) :=
  match l with
  | [] => [(k, v)]
  | (k', v') :: rest => if k' = k then (k, v) :: rest else (k', v') :: alistSet rest k v

/-- The `SparseMatrix` object: `numRows`, `numCols` and the nested dict
`self.matrix : dict[int, dict[int, int]]`. -/
structure SparseMatrix where
  numRows : Int
  numCols : Int
  matrix : List (Int × List (Int × Int))
deriving DecidableEq

/-- The stored binding at `(row, col)` of a nested dict, i.e.
`mtx.get(row, {}).get(col)` before any default is applied. -/
def cellGet (mtx : List (Int × List (Int × Int))) (row col : Int) : Option Int :=
  (alistGet mtx row).bind (fun inner => alistGet inner col)

/-- The stored binding at `(row, col)` of a matrix. -/
def getCell (m : SparseMatrix) (row col : Int) : Option Int :=
  cellGet m.matrix row col

/-- `get_element`: `self.matrix.get(row, {}).get(col, 0)`. -/
def SparseMatrix.get_element (m : SparseMatrix) (row col : Int) : Int :=
  (getCell m row col).getD 0

/-- The nested-dict update performed by `set_element` and by the entry loop of
`load_matrix`: create the inner dict if the row is absent, then bind `col`. -/
def setCell (mtx : List (Int × List (Int × Int))) (row col v : Int) :
    List (Int × List (Int × Int)) :=
  alistSet mtx row (alistSet ((alistGet mtx row).getD []) col v)

/-- `set_element(row, col, value)`. -/
def SparseMatrix.set_element (m : SparseMatrix) (row col v : Int) : SparseMatrix :=
  { m with matrix := setCell m.matrix row col v }

/-- Python `range(n)` for an `int` argument: empty when `n ≤ 0`. -/
def pyRange (n : Int) : List Int :=
  (List.range n.toNat).map (Int.ofNat ·)

/-- `add`: a dense double loop over `range(self.numRows) × range(self.numCols)`
writing `self.get_element(row, col) + other.get_element(row, col)` into a fresh
matrix that carries `self`'s dimensions. -/
def SparseMatrix.add (a b : SparseMatrix) : SparseMatrix :=
  (pyRange a.numRows).foldl
    (fun res row =>
      (pyRange a.numCols).foldl
        (fun res col =>
          res.set_element row col (a.get_element row col + b.get_element row col))
        res)
    ⟨a.numRows, a.numCols, []⟩

/-- `subtract`: identical to `add` with `-` in place of `+`. -/
def SparseMatrix.subtract (a b : SparseMatrix) : SparseMatrix :=
  (pyRange a.numRows).foldl
    (fun res row =>
      (pyRange a.numCols).foldl
        (fun res col =>
          res.set_element row col (a.get_element row col - b.get_element row col))
        res)
    ⟨a.numRows, a.numCols, []⟩

/-- The dot product `sum(self.get_element(row, k) * other.get_element(k, col)
for k in range(self.numCols))` inside `multiply`. -/
def dotProd (a b : SparseMatrix) (row col : Int) : Int :=
  ((pyRange a.numCols).map (fun k => a.get_element row k * b.get_element k col)).sum

/-- `multiply`: after the dimension check, iterates over the row keys of
`self.matrix` and — treating them as column indices — over the row keys of
`other_matrix.matrix`, and stores the dot product only when `col` is already a
key of `self.matrix[row]`.  This mirrors the source exactly, including its
flagged shortcut. -/
def SparseMatrix.multiply (a b : SparseMatrix) : Except String SparseMatrix :=
  if a.numCols ≠ b.numRows then
    .error "Matrix multiplication not possible with incompatible sizes."
  else
    .ok <|
      (a.matrix.map Prod.fst).foldl
        (fun res row =>
          (b.matrix.map Prod.fst).foldl
            (fun res col =>
              if (alistGet ((alistGet a.matrix row).getD []) col).isSome then
                res.set_element row col (dotProd a b row col)
              else res)
            res)
        ⟨a.numRows, b.numCols, []⟩

/-! ## The format codec -/

/-- The whitespace characters removed by Python `str.strip()` (ASCII part). -/
def isPySpace (c : Char) : Bool :=
  c = ' ' || c = '\t' || c = '\n' || c = '\r' || c = '\x0b' || c = '\x0c'

/-- `str.strip()`: drop whitespace from both ends. -/
def pyStrip (s : PyStr) : PyStr :=
  ((s.dropWhile isPySpace).reverse.dropWhile isPySpace).reverse

/-- Python `str.split(sep)` for a one-character separator: splits on every
occurrence, keeping empty pieces (`"".split(',') == ['']`). -/
def splitOnChar (sep : Char) : PyStr → List PyStr
  | [] => [[]]
  | c :: rest =>
    match splitOnChar sep rest with
    | [] => [[]]
    | g :: gs => if c = sep then [] :: g :: gs else (c :: g) :: gs

/-- The digit string of `int(s)`: all characters must be decimal digits and
there must be at least one. -/
def digitsToNat? (l : PyStr) : Option Nat :=
  if l ≠ [] ∧ l.all Char.isDigit then
    some (l.foldl (fun n c => n * 10 + (c.toNat - 48)) 0)
  else none

/-- Python `int(s)` on a string: strip whitespace, optional single sign,
then decimal digits; anything else raises `ValueError` (here `none`). -/
def pyInt? (s : PyStr) : Option Int :=
  match pyStrip s with
  | [] => none
  | c :: rest =>
    if c = '-' then (digitsToNat? rest).map (fun n => -(n : Int))
    else if c = '+' then (digitsToNat? rest).map (fun n => (n : Int))
    else (digitsToNat? (c :: rest)).map (fun n => (n : Int))

/-- `parse_entry(line)`: `entry = line.strip()[1:-1].split(',')`, then
`int(entry[0]), int(entry[1]), int(entry[2])`.  Note that `[1:-1]` removes the
first and last characters unconditionally — they are never compared against
`'('`/`')'`.  Index or `int` failures propagate as `none`. -/
def parse_entry (line : PyStr) : Option (Int × Int × Int) := do
  let entry := splitOnChar ',' ((pyStrip line).drop 1).dropLast
  let t0 ← entry.get? 0
  let t1 ← entry.get? 1
  let t2 ← entry.get? 2
  let r ← pyInt? t0
  let c ← pyInt? t1
  let v ← pyInt? t2
  pure (r, c, v)

/-- One header line of `load_matrix`: `int(line.split('=')[1])` — the text
before the first `=` is never inspected. -/
def headerValue (line : PyStr) : Option Int :=
  (splitOnChar '=' line).get? 1 >>= pyInt?

/-- The entry loop of `load_matrix`: skip blank lines, parse the rest, insert
with `matrix[row][col] = value` (the same nested-dict update as
`set_element`); the first failure aborts the whole parse. -/
def parseEntryLines (mtx : List (Int × List (Int × Int))) :
    List PyStr → Option (List (Int × List (Int × Int)))
  | [] => some mtx
  | line :: rest =>
    if pyStrip line ≠ [] then
      match parse_entry line with
      | some (r, c, v) => parseEntryLines (setCell mtx r c v) rest
      | none => none
    else parseEntryLines mtx rest

/-- `load_matrix` on a file's lines: two header reads (EOF reads back as the
empty string), then the entry loop; every failure is wrapped into the single
`ValueError` of the source. -/
def load_matrix (lines : List PyStr) : Except String SparseMatrix :=
  match headerValue (lines.getD 0 []), headerValue (lines.getD 1 []) with
  | some rows, some cols =>
    match parseEntryLines [] (lines.drop 2) with
    | some mtx => .ok ⟨rows, cols, mtx⟩
    | none => .error "Input file has wrong format"
  | _, _ => .error "Input file has wrong format"

/-- Decimal digit characters of a natural number, most significant first
(accumulator form, fuel-structured so that it reduces in the kernel; any
`fuel > log10 n` computes all digits, and `natChars` passes `n + 1`). -/
def natCharsCore (fuel n : Nat) (acc : PyStr) : PyStr :=
  match fuel with
  | 0 => acc
  | fuel + 1 =>
    let acc' := Char.ofNat (48 + n % 10) :: acc
    if n < 10 then acc' else natCharsCore fuel (n / 10) acc'

/-- Decimal digit characters of a natural number, most significant first. -/
def natChars (n : Nat) : PyStr := natCharsCore (n + 1) n []

/-- Python `str(i)` / f-string formatting of an `int`. -/
def intChars (i : Int) : PyStr :=
  if i < 0 then '-' :: natChars i.natAbs else natChars i.toNat

/-- `save_to_file`: the lines `rows=<numRows>`, `cols=<numCols>`, then one
line `(<row>, <col>, <value>)` per stored binding, in storage order. -/
def serialize (m : SparseMatrix) : List PyStr :=
  ("rows=".data ++ intChars m.numRows) ::
  ("cols=".data ++ intChars m.numCols) ::
  m.matrix.flatMap (fun p =>
    p.2.map (fun q =>
      '(' :: intChars p.1 ++ ',' :: ' ' :: intChars q.1 ++
        ',' :: ' ' :: intChars q.2 ++ [')']))

/-- All stored key pairs `(r, c)` of a nested dict satisfy `P r` and `Q c`. -/
def keysWithin (P Q : Int → Prop) (mtx : List (Int × List (Int × Int))) : Prop :=
  ∀ p ∈ mtx, P p.1 ∧ ∀ q ∈ p.2, Q q.1

/-! ## An object store

Python objects live on a heap and are passed by reference; `add`, `subtract`
and `multiply` allocate a fresh `SparseMatrix` object and call `set_element`
only on that fresh object.  To state the frame property we model the heap
explicitly: references are `Nat`s, allocation appends at a never-used
reference.  The pure functions above compute the value the sequence of
`result.set_element` calls leaves in the freshly allocated object. -/

/-- The Python object store: allocated `SparseMatrix` objects, and the next
fresh reference. -/
structure Heap where
  store : List (Nat × SparseMatrix)
  next : Nat

/-- Every allocated reference is below `next`. -/
def Heap.wf (h : Heap) : Prop := ∀ p ∈ h.store, p.1 < h.next

/-- Dereference. -/
def Heap.get (h : Heap) (r : Nat) : Option SparseMatrix := alistGet h.store r

/-- Allocate a fresh object, returning the new heap and the reference. -/
def Heap.alloc (h : Heap) (m : SparseMatrix) : Heap × Nat :=
  (⟨h.store ++ [(h.next, m)], h.next + 1⟩, h.next)

/-- `matrix1.add(matrix2)` as a heap operation: dereference both operands,
allocate a fresh result object holding the computed sum. -/
def addOp (h : Heap) (ra rb : Nat) : Option (Heap × Nat) := do
  let a ← h.get ra
  let b ← h.get rb
  pure (h.alloc (a.add b))

/-- `matrix1.subtract(matrix2)` as a heap operation. -/
def subOp (h : Heap) (ra rb : Nat) : Option (Heap × Nat) := do
  let a ← h.get ra
  let b ← h.get rb
  pure (h.alloc (a.subtract b))

/-- `matrix1.multiply(matrix2)` as a heap operation; the dimension check can
additionally raise, hence the inner `Except`. -/
def mulOp (h : Heap) (ra rb : Nat) : Option (Except String (Heap × Nat)) := do
  let a ← h.get ra
  let b ← h.get rb
  pure ((a.multiply b).map h.alloc)

/-! ## Basic association-list lemmas -/

theorem alistGet_alistSet {κ β : Type} [DecidableEq κ] (l : List (κ × β)) (k k' : κ)
    (v : β) :
    alistGet (alistSet l k v) k' = if k = k' then some v else alistGet l k' := by
  induction l with
  | nil => simp [alistSet, alistGet]
  | cons p rest ih =>
    obtain ⟨k0, v0⟩ := p
    by_cases h0 : k0 = k
    · subst h0
      by_cases h1 : k0 = k' <;> simp [alistSet, alistGet, h1]
    · simp only [alistSet, if_neg h0, alistGet, ih]
      by_cases h1 : k = k'
      · subst h1
        simp [h0]
      · simp [h1]

theorem alistGet_mem {κ β : Type} [DecidableEq κ] {l : List (κ × β)} {k : κ} {v : β}
    (h : alistGet l k = some v) : (k, v) ∈ l := by
  induction l with
  | nil => simp [alistGet] at h
  | cons p rest ih =>
    obtain ⟨k0, v0⟩ := p
    by_cases h0 : k0 = k
    · subst h0
      simp [alistGet] at h
      simp [h]
    · simp only [alistGet, if_neg h0] at h
      exact List.mem_cons_of_mem _ (ih h)

theorem alistGet_eq_none_of_not_mem {κ β : Type} [DecidableEq κ] {l : List (κ × β)}
    {k : κ} (h : k ∉ l.map Prod.fst) : alistGet l k = none := by
  induction l with
  | nil => rfl
  | cons p rest ih =>
    simp only [List.map_cons, List.mem_cons] at h
    push_neg at h
    have h1 : p.1 ≠ k := fun hh => h.1 hh.symm
    simp only [alistGet, if_neg h1, ih h.2]

theorem mem_alistSet {κ β : Type} [DecidableEq κ] {l : List (κ × β)} {k : κ} {v : β}
    {p : κ × β} (h : p ∈ alistSet l k v) : p ∈ l ∨ p = (k, v) := by
  induction l with
  | nil =>
    right
    simpa [alistSet] using h
  | cons q rest ih =>
    obtain ⟨k0, v0⟩ := q
    by_cases h0 : k0 = k
    · subst h0
      have h' : p ∈ (k0, v) :: rest := by simpa [alistSet] using h
      rcases List.mem_cons.mp h' with h1 | h1
      · exact Or.inr h1
      · exact Or.inl (List.mem_cons_of_mem _ h1)
    · have h' : p ∈ (k0, v0) :: alistSet rest k v := by simpa [alistSet, h0] using h
      rcases List.mem_cons.mp h' with h1 | h1
      · exact Or.inl (by simp [h1])
      · rcases ih h1 with h2 | h2
        · exact Or.inl (List.mem_cons_of_mem _ h2)
        · exact Or.inr h2

/-- The fundamental get/set law of the nested-dict update. -/
theorem cellGet_setCell (mtx : List (Int × List (Int × Int))) (r c v r' c' : Int) :
    cellGet (setCell mtx r c v) r' c' =
      if r = r' ∧ c = c' then some v else cellGet mtx r' c' := by
  unfold cellGet setCell
  rw [alistGet_alistSet]
  by_cases hr : r = r'
  · subst hr
    simp only [eq_self_iff_true, true_and, ite_true, Option.some_bind]
    rw [alistGet_alistSet]
    by_cases hc : c = c'
    · simp [hc]
    · rw [if_neg hc, if_neg hc]
      cases h : alistGet mtx r with
      | none => simp [h, alistGet]
      | some inner => simp [h]
  · simp [hr]

theorem getCell_set_element (m : SparseMatrix) (r c v r' c' : Int) :
    getCell (m.set_element r c v) r' c' =
      if r = r' ∧ c = c' then some v else getCell m r' c' := by
  simpa [getCell, SparseMatrix.set_element] using cellGet_setCell m.matrix r c v r' c'

@[simp]
theorem set_element_numRows (m : SparseMatrix) (r c v : Int) :
    (m.set_element r c v).numRows = m.numRows := rfl

@[simp]
theorem set_element_numCols (m : SparseMatrix) (r c v : Int) :
    (m.set_element r c v).numCols = m.numCols := rfl

theorem mem_pyRange {n x : Int} : x ∈ pyRange n ↔ 0 ≤ x ∧ x < n := by
  simp only [pyRange, List.mem_map, List.mem_range, Int.ofNat_eq_natCast]
  constructor
  · rintro ⟨m, hm, rfl⟩
    omega
  · rintro ⟨h0, h1⟩
    exact ⟨x.toNat, by omega, by omega⟩

/-- Generic invariant preservation along a left fold. -/
theorem foldl_inv {α σ : Type} (P : σ → Prop) (g : σ → α → σ) (l : List α) (s : σ)
    (step : ∀ t x, x ∈ l → P t → P (g t x)) (base : P s) : P (l.foldl g s) := by
  induction l generalizing s with
  | nil => exact base
  | cons x xs ih =>
    exact ih (g s x) (fun t y hy ht => step t y (List.mem_cons_of_mem _ hy) ht)
      (step s x (List.mem_cons_self _ _) base)

/-! ## The dense double loop of `add` and `subtract` -/

theorem getCell_colLoop (f : Int → Int → Int) (row : Int) (cols : List Int)
    (init : SparseMatrix) (r c : Int) :
    getCell (cols.foldl (fun res col => res.set_element row col (f row col)) init) r c =
      if r = row ∧ c ∈ cols then some (f row c) else getCell init r c := by
  induction cols generalizing init with
  | nil => simp
  | cons c0 rest ih =>
    rw [List.foldl_cons, ih, getCell_set_element]
    by_cases hr : r = row
    · subst hr
      by_cases hc0 : c = c0
      · subst hc0
        by_cases hc : c ∈ rest <;> simp [hc]
      · have h1 : ¬(c0 = c) := fun hh => hc0 hh.symm
        by_cases hc : c ∈ rest <;> simp [hc, hc0, h1]
    · have h1 : ¬(row = r) := fun hh => hr hh.symm
      simp [hr, h1]

theorem getCell_rowLoop (f : Int → Int → Int) (rows cols : List Int)
    (init : SparseMatrix) (r c : Int) :
    getCell
        (rows.foldl
          (fun res row => cols.foldl (fun res col => res.set_element row col (f row col)) res)
          init) r c =
      if r ∈ rows ∧ c ∈ cols then some (f r c) else getCell init r c := by
  induction rows generalizing init with
  | nil => simp
  | cons r0 rest ih =>
    rw [List.foldl_cons, ih, getCell_colLoop]
    by_cases hrr : r ∈ rest
    · by_cases hc : c ∈ cols <;> simp [hrr, hc]
    · by_cases hr0 : r = r0
      · subst hr0
        by_cases hc : c ∈ cols <;> simp [hrr, hc]
      · simp [hrr, hr0]

theorem getCell_add (a b : SparseMatrix) (r c : Int) :
    getCell (a.add b) r c =
      if 0 ≤ r ∧ r < a.numRows ∧ 0 ≤ c ∧ c < a.numCols then
        some (a.get_element r c + b.get_element r c)
      else none := by
  show getCell ((pyRange a.numRows).foldl _ ⟨a.numRows, a.numCols, []⟩) r c = _
  rw [getCell_rowLoop (fun row col => a.get_element row col + b.get_element row col)]
  simp only [mem_pyRange]
  by_cases h : 0 ≤ r ∧ r < a.numRows ∧ 0 ≤ c ∧ c < a.numCols
  · rw [if_pos ⟨⟨h.1, h.2.1⟩, h.2.2⟩, if_pos h]
  · rw [if_neg (by tauto), if_neg h]
    simp [getCell, cellGet, alistGet]

theorem getCell_subtract (a b : SparseMatrix) (r c : Int) :
    getCell (a.subtract b) r c =
      if 0 ≤ r ∧ r < a.numRows ∧ 0 ≤ c ∧ c < a.numCols then
        some (a.get_element r c - b.get_element r c)
      else none := by
  show getCell ((pyRange a.numRows).foldl _ ⟨a.numRows, a.numCols, []⟩) r c = _
  rw [getCell_rowLoop (fun row col => a.get_element row col - b.get_element row col)]
  simp only [mem_pyRange]
  by_cases h : 0 ≤ r ∧ r < a.numRows ∧ 0 ≤ c ∧ c < a.numCols
  · rw [if_pos ⟨⟨h.1, h.2.1⟩, h.2.2⟩, if_pos h]
  · rw [if_neg (by tauto), if_neg h]
    simp [getCell, cellGet, alistGet]

theorem add_numRows (a b : SparseMatrix) : (a.add b).numRows = a.numRows := by
  refine foldl_inv (fun s : SparseMatrix => s.numRows = a.numRows) _ _ _ (fun t row _ ht => ?_) rfl
  exact foldl_inv (fun s : SparseMatrix => s.numRows = a.numRows) _ _ _ (fun u col _ hu => hu) ht

theorem add_numCols (a b : SparseMatrix) : (a.add b).numCols = a.numCols := by
  refine foldl_inv (fun s : SparseMatrix => s.numCols = a.numCols) _ _ _ (fun t row _ ht => ?_) rfl
  exact foldl_inv (fun s : SparseMatrix => s.numCols = a.numCols) _ _ _ (fun u col _ hu => hu) ht

theorem subtract_numRows (a b : SparseMatrix) : (a.subtract b).numRows = a.numRows := by
  refine foldl_inv (fun s : SparseMatrix => s.numRows = a.numRows) _ _ _ (fun t row _ ht => ?_) rfl
  exact foldl_inv (fun s : SparseMatrix => s.numRows = a.numRows) _ _ _ (fun u col _ hu => hu) ht

theorem subtract_numCols (a b : SparseMatrix) : (a.subtract b).numCols = a.numCols := by
  refine foldl_inv (fun s : SparseMatrix => s.numCols = a.numCols) _ _ _ (fun t row _ ht => ?_) rfl
  exact foldl_inv (fun s : SparseMatrix => s.numCols = a.numCols) _ _ _ (fun u col _ hu => hu) ht

/-! ## Key-bounds preservation -/

theorem keysWithin_setCell {P Q : Int → Prop} {mtx : List (Int × List (Int × Int))}
    {r c v : Int} (h : keysWithin P Q mtx) (hr : P r) (hc : Q c) :
    keysWithin P Q (setCell mtx r c v) := by
  intro p hp
  rcases mem_alistSet hp with hp' | hp'
  · exact h p hp'
  · subst hp'
    refine ⟨hr, fun q hq => ?_⟩
    rcases mem_alistSet hq with hq' | hq'
    · cases hg : alistGet mtx r with
      | none => rw [hg] at hq'; simp at hq'
      | some inner =>
        rw [hg] at hq'
        exact (h _ (alistGet_mem hg)).2 q hq'
    · subst hq'
      exact hc

theorem add_keysWithin (a b : SparseMatrix) :
    keysWithin (fun k => 0 ≤ k ∧ k < a.numRows) (fun k => 0 ≤ k ∧ k < a.numCols)
      (a.add b).matrix := by
  refine foldl_inv
    (fun s : SparseMatrix =>
      keysWithin (fun k => 0 ≤ k ∧ k < a.numRows) (fun k => 0 ≤ k ∧ k < a.numCols) s.matrix)
    _ _ _ (fun t row hrow ht => ?_) (by intro p hp; simp at hp)
  refine foldl_inv
    (fun s : SparseMatrix =>
      keysWithin (fun k => 0 ≤ k ∧ k < a.numRows) (fun k => 0 ≤ k ∧ k < a.numCols) s.matrix)
    _ _ _ (fun u col hcol hu => ?_) ht
  exact keysWithin_setCell hu (mem_pyRange.mp hrow) (mem_pyRange.mp hcol)

theorem subtract_keysWithin (a b : SparseMatrix) :
    keysWithin (fun k => 0 ≤ k ∧ k < a.numRows) (fun k => 0 ≤ k ∧ k < a.numCols)
      (a.subtract b).matrix := by
  refine foldl_inv
    (fun s : SparseMatrix =>
      keysWithin (fun k => 0 ≤ k ∧ k < a.numRows) (fun k => 0 ≤ k ∧ k < a.numCols) s.matrix)
    _ _ _ (fun t row hrow ht => ?_) (by intro p hp; simp at hp)
  refine foldl_inv
    (fun s : SparseMatrix =>
      keysWithin (fun k => 0 ≤ k ∧ k < a.numRows) (fun k => 0 ≤ k ∧ k < a.numCols) s.matrix)
    _ _ _ (fun u col hcol hu => ?_) ht
  exact keysWithin_setCell hu (mem_pyRange.mp hrow) (mem_pyRange.mp hcol)

theorem multiply_ok_dims (a b m : SparseMatrix) (h : a.multiply b = .ok m) :
    m.numRows = a.numRows ∧ m.numCols = b.numCols := by
  unfold SparseMatrix.multiply at h
  split at h
  · exact absurd h (by simp)
  · rw [Except.ok.injEq] at h
    subst h
    refine foldl_inv
      (fun s : SparseMatrix => s.numRows = a.numRows ∧ s.numCols = b.numCols)
      _ _ _ (fun t row _ ht => ?_) ⟨rfl, rfl⟩
    refine foldl_inv
      (fun s : SparseMatrix => s.numRows = a.numRows ∧ s.numCols = b.numCols)
      _ _ _ (fun u col _ hu => ?_) ht
    dsimp only
    split
    · simpa using hu
    · exact hu

theorem multiply_ok_keys (a b m : SparseMatrix)
    (hA : keysWithin (fun k => 0 ≤ k ∧ k < a.numRows) (fun k => 0 ≤ k ∧ k < a.numCols)
      a.matrix)
    (hB : keysWithin (fun k => 0 ≤ k ∧ k < b.numRows) (fun k => 0 ≤ k ∧ k < b.numCols)
      b.matrix)
    (h : a.multiply b = .ok m) :
    keysWithin (fun k => 0 ≤ k ∧ k < a.numRows) (fun k => 0 ≤ k ∧ k < b.numRows)
      m.matrix := by
  unfold SparseMatrix.multiply at h
  split at h
  · exact absurd h (by simp)
  · rw [Except.ok.injEq] at h
    subst h
    refine foldl_inv
      (fun s : SparseMatrix =>
        keysWithin (fun k => 0 ≤ k ∧ k < a.numRows) (fun k => 0 ≤ k ∧ k < b.numRows)
          s.matrix)
      _ _ _ (fun t row hrow ht => ?_) (by intro p hp; simp at hp)
    obtain ⟨p, hp, hp1⟩ := List.mem_map.mp hrow
    refine foldl_inv
      (fun s : SparseMatrix =>
        keysWithin (fun k => 0 ≤ k ∧ k < a.numRows) (fun k => 0 ≤ k ∧ k < b.numRows)
          s.matrix)
      _ _ _ (fun u col hcol hu => ?_) ht
    obtain ⟨q, hq, hq1⟩ := List.mem_map.mp hcol
    split
    · exact keysWithin_setCell hu (hp1 ▸ (hA p hp).1) (hq1 ▸ (hB q hq).1)
    · exact hu

/-! ## Heap lemmas -/

theorem alistGet_append_of_some {κ β : Type} [DecidableEq κ] {l : List (κ × β)}
    {k : κ} {x : β} (h : alistGet l k = some x) (p : κ × β) :
    alistGet (l ++ [p]) k = some x := by
  induction l with
  | nil => simp [alistGet] at h
  | cons q rest ih =>
    obtain ⟨k0, v0⟩ := q
    by_cases h0 : k0 = k
    · subst h0
      simp [alistGet] at h
      simp [alistGet, h]
    · simp only [alistGet, if_neg h0] at h
      simp only [List.cons_append, alistGet, if_neg h0]
      exact ih h

theorem alistGet_append_of_none {κ β : Type} [DecidableEq κ] {l : List (κ × β)}
    {k : κ} (h : alistGet l k = none) (n : κ) (v : β) :
    alistGet (l ++ [(n, v)]) k = if n = k then some v else none := by
  induction l with
  | nil => simp [alistGet]
  | cons q rest ih =>
    obtain ⟨k0, v0⟩ := q
    by_cases h0 : k0 = k
    · subst h0
      simp [alistGet] at h
    · simp only [alistGet, if_neg h0] at h
      simp only [List.cons_append, alistGet, if_neg h0]
      exact ih h

theorem heap_alloc_preserves (h : Heap) (m : SparseMatrix) {r : Nat} {x : SparseMatrix}
    (hx : h.get r = some x) : (h.alloc m).1.get r = some x :=
  alistGet_append_of_some hx _

theorem heap_fresh_unused (h : Heap) (hwf : h.wf) (m : SparseMatrix) :
    h.get (h.alloc m).2 = none := by
  cases hg : h.get (h.alloc m).2 with
  | none => rfl
  | some x =>
    have := hwf _ (alistGet_mem hg)
    simp [Heap.alloc] at this

theorem heap_alloc_get_new (h : Heap) (hwf : h.wf) (m : SparseMatrix) :
    (h.alloc m).1.get (h.alloc m).2 = some m := by
  have hnone : alistGet h.store h.next = none := heap_fresh_unused h hwf m
  show alistGet (h.store ++ [(h.next, m)]) h.next = some m
  rw [alistGet_append_of_none hnone]
  simp

/-! ## Claim theorems: the engine -/

/-- Claim C9: `set_element(M, r, c, v)` followed by `get_element(M, r, c)`
returns exactly `v` for every `v`; setting `0` stores an explicit zero entry
(the key is present with binding `0`) rather than removing the key. -/
theorem set_then_get (m : SparseMatrix) (r c v : Int) :
    (m.set_element r c v).get_element r c = v ∧
    getCell (m.set_element r c 0) r c = some 0 := by
  constructor
  · simp [SparseMatrix.get_element, getCell_set_element]
  · simp [getCell_set_element]

/-- Claim C4: `multiply(A, B)` with `A.cols != B.rows` fails with the
dimension-mismatch `ValueError` and produces no result matrix. -/
theorem multiply_dim_mismatch (a b : SparseMatrix) (h : a.numCols ≠ b.numRows) :
    a.multiply b = .error "Matrix multiplication not possible with incompatible sizes." := by
  simp [SparseMatrix.multiply, h]

/-- Witness for C4 at concrete dimensions 2×3 times 2×2. -/
theorem multiply_dim_mismatch_wtn :
    (SparseMatrix.mk 2 3 []).numCols ≠ (SparseMatrix.mk 2 2 []).numRows ∧
    SparseMatrix.multiply ⟨2, 3, []⟩ ⟨2, 2, []⟩ =
      .error "Matrix multiplication not possible with incompatible sizes." :=
  ⟨by decide, multiply_dim_mismatch ⟨2, 3, []⟩ ⟨2, 2, []⟩ (by decide)⟩

/-- Claim C5: for every pair of matrices `a`, `b` (no dimension check is
performed), `add` returns a matrix with `a`'s dimensions in which every grid
position `(r, c)` reads `get_element(a,r,c) + get_element(b,r,c)` and is
materialized as a stored entry, including zero sums. -/
theorem add_dense_spec (a b : SparseMatrix) (r c : Int)
    (hr0 : 0 ≤ r) (hr1 : r < a.numRows) (hc0 : 0 ≤ c) (hc1 : c < a.numCols) :
    (a.add b).numRows = a.numRows ∧ (a.add b).numCols = a.numCols ∧
    (a.add b).get_element r c = a.get_element r c + b.get_element r c ∧
    (getCell (a.add b) r c).isSome = true := by
  refine ⟨add_numRows a b, add_numCols a b, ?_, ?_⟩
  · simp [SparseMatrix.get_element, getCell_add, hr0, hr1, hc0, hc1]
  · simp [getCell_add, hr0, hr1, hc0, hc1]

/-- Witness for C5: `[[2]] + [[3]]` at position `(0,0)`, with a zero-sum
position exercised through dimensions: also checked by evaluation. -/
theorem add_dense_spec_wtn :
    ((⟨1, 1, [(0, [(0, 2)])]⟩ : SparseMatrix).add ⟨1, 1, [(0, [(0, 3)])]⟩).numRows = 1 ∧
    ((⟨1, 1, [(0, [(0, 2)])]⟩ : SparseMatrix).add ⟨1, 1, [(0, [(0, 3)])]⟩).numCols = 1 ∧
    ((⟨1, 1, [(0, [(0, 2)])]⟩ : SparseMatrix).add ⟨1, 1, [(0, [(0, 3)])]⟩).get_element 0 0 =
      (⟨1, 1, [(0, [(0, 2)])]⟩ : SparseMatrix).get_element 0 0 +
        (⟨1, 1, [(0, [(0, 3)])]⟩ : SparseMatrix).get_element 0 0 ∧
    (getCell ((⟨1, 1, [(0, [(0, 2)])]⟩ : SparseMatrix).add ⟨1, 1, [(0, [(0, 3)])]⟩) 0 0).isSome
      = true :=
  add_dense_spec ⟨1, 1, [(0, [(0, 2)])]⟩ ⟨1, 1, [(0, [(0, 3)])]⟩ 0 0
    (by decide) (by decide) (by decide) (by decide)

/-- Claim C1 (code bug): the failing input.  `a` is `1×2` holding only
`a[0][1] = 5`, `b` is `2×1` holding only `b[1][0] = 7`.  The specified dot
product at `(0,0)` is `a[0,0]*b[0,0] + a[0,1]*b[1,0] = 35`, but `multiply`
returns a matrix whose `get_element(0,0)` is `0`: the shortcut only computes
positions `(row, col)` with `col` already a key of `a.matrix[row]`, and it
iterates the row keys of `b` as if they were column indices (the spurious
stored entry `(0, 1) ↦ 0` is even out of the declared `1×1` bounds). -/
theorem multiply_shortcut_drops_product :
    SparseMatrix.multiply ⟨1, 2, [(0, [(1, 5)])]⟩ ⟨2, 1, [(1, [(0, 7)])]⟩ =
      .ok ⟨1, 1, [(0, [(1, 0)])]⟩ ∧
    SparseMatrix.get_element ⟨1, 1, [(0, [(1, 0)])]⟩ 0 0 = 0 ∧
    dotProd ⟨1, 2, [(0, [(1, 5)])]⟩ ⟨2, 1, [(1, [(0, 7)])]⟩ 0 0 = 35 :=
  ⟨rfl, rfl, rfl⟩

/-- Counterexample to Claim C2 as stated: both operands respect the key-bounds
invariant and `a.cols = b.rows`, yet `multiply` stores the key pair `(0, 1)`
with column index `1 ≥ result.cols = 1`. -/
theorem multiply_breaks_bounds :
    keysWithin (fun k => 0 ≤ k ∧ k < 1) (fun k => 0 ≤ k ∧ k < 2) [(0, [(1, 5)])] ∧
    keysWithin (fun k => 0 ≤ k ∧ k < 2) (fun k => 0 ≤ k ∧ k < 1) [(1, [(0, 7)])] ∧
    SparseMatrix.multiply ⟨1, 2, [(0, [(1, 5)])]⟩ ⟨2, 1, [(1, [(0, 7)])]⟩ =
      .ok ⟨1, 1, [(0, [(1, 0)])]⟩ ∧
    ¬ keysWithin (fun k => 0 ≤ k ∧ k < 1) (fun k => 0 ≤ k ∧ k < 1) [(0, [(1, 0)])] := by
  refine ⟨?_, ?_, rfl, ?_⟩
  · intro p hp
    simp at hp
    subst hp
    refine ⟨by norm_num, fun q hq => ?_⟩
    simp at hq
    subst hq
    norm_num
  · intro p hp
    simp at hp
    subst hp
    refine ⟨by norm_num, fun q hq => ?_⟩
    simp at hq
    subst hq
    norm_num
  · intro hK
    have := ((hK (0, [(1, 0)]) (by simp)).2 (1, 0) (by simp)).2
    norm_num at this

/-- Claim C2 (amended): `add` and `subtract` always produce matrices whose
stored keys `(r, c)` satisfy `0 ≤ r < result.rows ∧ 0 ≤ c < result.cols`.
For in-bounds operands, `multiply` guarantees `0 ≤ r < result.rows` for row
keys, but only `0 ≤ c < b.rows` for column keys — which exceeds
`result.cols = b.cols` whenever `b` has a row key `≥ b.cols` (see the
counterexample). -/
theorem ops_key_bounds (a b : SparseMatrix)
    (hA : keysWithin (fun k => 0 ≤ k ∧ k < a.numRows) (fun k => 0 ≤ k ∧ k < a.numCols)
      a.matrix)
    (hB : keysWithin (fun k => 0 ≤ k ∧ k < b.numRows) (fun k => 0 ≤ k ∧ k < b.numCols)
      b.matrix) :
    keysWithin (fun k => 0 ≤ k ∧ k < (a.add b).numRows)
      (fun k => 0 ≤ k ∧ k < (a.add b).numCols) (a.add b).matrix ∧
    keysWithin (fun k => 0 ≤ k ∧ k < (a.subtract b).numRows)
      (fun k => 0 ≤ k ∧ k < (a.subtract b).numCols) (a.subtract b).matrix ∧
    ∀ m, a.multiply b = .ok m →
      keysWithin (fun k => 0 ≤ k ∧ k < m.numRows) (fun k => 0 ≤ k ∧ k < b.numRows)
        m.matrix := by
  refine ⟨?_, ?_, fun m hm => ?_⟩
  · rw [add_numRows, add_numCols]
    exact add_keysWithin a b
  · rw [subtract_numRows, subtract_numCols]
    exact subtract_keysWithin a b
  · rw [(multiply_ok_dims a b m hm).1]
    exact multiply_ok_keys a b m hA hB hm

/-- Witness for the amended C2 at the counterexample pair of matrices. -/
theorem ops_key_bounds_wtn :
    keysWithin (fun k => 0 ≤ k ∧ k <
        ((⟨1, 2, [(0, [(1, 5)])]⟩ : SparseMatrix).add ⟨2, 1, [(1, [(0, 7)])]⟩).numRows)
      (fun k => 0 ≤ k ∧ k <
        ((⟨1, 2, [(0, [(1, 5)])]⟩ : SparseMatrix).add ⟨2, 1, [(1, [(0, 7)])]⟩).numCols)
      ((⟨1, 2, [(0, [(1, 5)])]⟩ : SparseMatrix).add ⟨2, 1, [(1, [(0, 7)])]⟩).matrix ∧
    keysWithin (fun k => 0 ≤ k ∧ k <
        ((⟨1, 2, [(0, [(1, 5)])]⟩ : SparseMatrix).subtract ⟨2, 1, [(1, [(0, 7)])]⟩).numRows)
      (fun k => 0 ≤ k ∧ k <
        ((⟨1, 2, [(0, [(1, 5)])]⟩ : SparseMatrix).subtract ⟨2, 1, [(1, [(0, 7)])]⟩).numCols)
      ((⟨1, 2, [(0, [(1, 5)])]⟩ : SparseMatrix).subtract ⟨2, 1, [(1, [(0, 7)])]⟩).matrix ∧
    ∀ m, SparseMatrix.multiply ⟨1, 2, [(0, [(1, 5)])]⟩ ⟨2, 1, [(1, [(0, 7)])]⟩ = .ok m →
      keysWithin (fun k => 0 ≤ k ∧ k < m.numRows) (fun k => 0 ≤ k ∧ k < (2 : Int))
        m.matrix :=
  ops_key_bounds ⟨1, 2, [(0, [(1, 5)])]⟩ ⟨2, 1, [(1, [(0, 7)])]⟩
    (by intro p hp; simp at hp; subst hp; exact ⟨by norm_num, by intro q hq; simp at hq; subst hq; norm_num⟩)
    (by intro p hp; simp at hp; subst hp; exact ⟨by norm_num, by intro q hq; simp at hq; subst hq; norm_num⟩)

/-- Claim C8: on a well-formed heap, each of `add`, `subtract` and `multiply`
dereferences its two operands, computes the result purely, and allocates it at
a fresh reference: the operation is exactly `alloc` of the pure result, and
`alloc` leaves every existing reference — in particular both operands —
unchanged while the returned reference was absent from the old heap. -/
theorem ops_frame (h : Heap) (ra rb : Nat) (a b : SparseMatrix)
    (hwf : h.wf) (ha : h.get ra = some a) (hb : h.get rb = some b) :
    addOp h ra rb = some (h.alloc (a.add b)) ∧
    subOp h ra rb = some (h.alloc (a.subtract b)) ∧
    mulOp h ra rb = some ((a.multiply b).map h.alloc) ∧
    ∀ m : SparseMatrix,
      (h.alloc m).1.get ra = some a ∧ (h.alloc m).1.get rb = some b ∧
      h.get (h.alloc m).2 = none ∧ (h.alloc m).1.get (h.alloc m).2 = some m := by
  refine ⟨by simp [addOp, ha, hb], by simp [subOp, ha, hb], by simp [mulOp, ha, hb],
    fun m => ⟨heap_alloc_preserves h m ha, heap_alloc_preserves h m hb,
      heap_fresh_unused h hwf m, heap_alloc_get_new h hwf m⟩⟩

/-- Witness for C8 on a concrete two-object heap. -/
theorem ops_frame_wtn :
    addOp ⟨[(0, ⟨1, 1, [(0, [(0, 2)])]⟩), (1, ⟨1, 1, [(0, [(0, 3)])]⟩)], 2⟩ 0 1 =
      some ((⟨[(0, ⟨1, 1, [(0, [(0, 2)])]⟩), (1, ⟨1, 1, [(0, [(0, 3)])]⟩)], 2⟩ : Heap).alloc
        ((⟨1, 1, [(0, [(0, 2)])]⟩ : SparseMatrix).add ⟨1, 1, [(0, [(0, 3)])]⟩)) ∧
    subOp ⟨[(0, ⟨1, 1, [(0, [(0, 2)])]⟩), (1, ⟨1, 1, [(0, [(0, 3)])]⟩)], 2⟩ 0 1 =
      some ((⟨[(0, ⟨1, 1, [(0, [(0, 2)])]⟩), (1, ⟨1, 1, [(0, [(0, 3)])]⟩)], 2⟩ : Heap).alloc
        ((⟨1, 1, [(0, [(0, 2)])]⟩ : SparseMatrix).subtract ⟨1, 1, [(0, [(0, 3)])]⟩)) ∧
    mulOp ⟨[(0, ⟨1, 1, [(0, [(0, 2)])]⟩), (1, ⟨1, 1, [(0, [(0, 3)])]⟩)], 2⟩ 0 1 =
      some (((⟨1, 1, [(0, [(0, 2)])]⟩ : SparseMatrix).multiply ⟨1, 1, [(0, [(0, 3)])]⟩).map
        (⟨[(0, ⟨1, 1, [(0, [(0, 2)])]⟩), (1, ⟨1, 1, [(0, [(0, 3)])]⟩)], 2⟩ : Heap).alloc) ∧
    ∀ m : SparseMatrix,
      ((⟨[(0, ⟨1, 1, [(0, [(0, 2)])]⟩), (1, ⟨1, 1, [(0, [(0, 3)])]⟩)], 2⟩ : Heap).alloc m).1.get 0 =
          some ⟨1, 1, [(0, [(0, 2)])]⟩ ∧
        ((⟨[(0, ⟨1, 1, [(0, [(0, 2)])]⟩), (1, ⟨1, 1, [(0, [(0, 3)])]⟩)], 2⟩ : Heap).alloc m).1.get 1 =
          some ⟨1, 1, [(0, [(0, 3)])]⟩ ∧
        (⟨[(0, ⟨1, 1, [(0, [(0, 2)])]⟩), (1, ⟨1, 1, [(0, [(0, 3)])]⟩)], 2⟩ : Heap).get
            ((⟨[(0, ⟨1, 1, [(0, [(0, 2)])]⟩), (1, ⟨1, 1, [(0, [(0, 3)])]⟩)], 2⟩ : Heap).alloc m).2 =
          none ∧
        ((⟨[(0, ⟨1, 1, [(0, [(0, 2)])]⟩), (1, ⟨1, 1, [(0, [(0, 3)])]⟩)], 2⟩ : Heap).alloc m).1.get
            ((⟨[(0, ⟨1, 1, [(0, [(0, 2)])]⟩), (1, ⟨1, 1, [(0, [(0, 3)])]⟩)], 2⟩ : Heap).alloc m).2 =
          some m :=
  ops_frame ⟨[(0, ⟨1, 1, [(0, [(0, 2)])]⟩), (1, ⟨1, 1, [(0, [(0, 3)])]⟩)], 2⟩ 0 1
    ⟨1, 1, [(0, [(0, 2)])]⟩ ⟨1, 1, [(0, [(0, 3)])]⟩
    (by intro p hp; simp at hp; rcases hp with hp | hp <;> simp [hp])
    (by decide) (by decide)

/-! ## String lemmas for the codec -/

theorem dropWhile_of_all_false {p : Char → Bool} {l : PyStr}
    (h : ∀ c ∈ l, p c = false) : l.dropWhile p = l := by
  cases l with
  | nil => rfl
  | cons c rest =>
    have := h c (List.mem_cons_self _ _)
    simp [List.dropWhile, this]

theorem pyStrip_of_all_nonspace {l : PyStr} (h : ∀ c ∈ l, isPySpace c = false) :
    pyStrip l = l := by
  unfold pyStrip
  rw [dropWhile_of_all_false h, dropWhile_of_all_false (fun c hc => h c (by simpa using hc)),
    List.reverse_reverse]

theorem pyStrip_space_cons (l : PyStr) : pyStrip (' ' :: l) = pyStrip l := by
  unfold pyStrip
  rw [List.dropWhile_cons_of_pos (by decide)]

theorem pyInt?_space_cons (l : PyStr) : pyInt? (' ' :: l) = pyInt? l := by
  unfold pyInt?
  rw [pyStrip_space_cons]

/-- Stripping a string that starts and ends with a non-whitespace character is
the identity. -/
theorem pyStrip_sandwich (a : Char) (mid : PyStr) (b : Char)
    (ha : isPySpace a = false) (hb : isPySpace b = false) :
    pyStrip (a :: (mid ++ [b])) = a :: (mid ++ [b]) := by
  unfold pyStrip
  rw [List.dropWhile_cons]
  simp only [ha, Bool.false_eq_true, if_false]
  have hrev : (a :: (mid ++ [b])).reverse = b :: (a :: mid).reverse := by simp
  rw [hrev, List.dropWhile_cons]
  simp only [hb, Bool.false_eq_true, if_false]
  simp

theorem splitOnChar_ne_nil (sep : Char) (l : PyStr) : splitOnChar sep l ≠ [] := by
  cases l with
  | nil => simp [splitOnChar]
  | cons c rest =>
    unfold splitOnChar
    cases splitOnChar sep rest with
    | nil => simp
    | cons g gs =>
      by_cases h : c = sep <;> simp [h]

theorem splitOnChar_of_not_mem {sep : Char} {l : PyStr} (h : sep ∉ l) :
    splitOnChar sep l = [l] := by
  induction l with
  | nil => rfl
  | cons c rest ih =>
    have hc : c ≠ sep := fun hh => h (hh ▸ List.mem_cons_self _ _)
    have hrest : sep ∉ rest := fun hh => h (List.mem_cons_of_mem _ hh)
    unfold splitOnChar
    rw [ih hrest]
    simp [hc]

theorem splitOnChar_append_sep {sep : Char} {a : PyStr} (b : PyStr) (h : sep ∉ a) :
    splitOnChar sep (a ++ sep :: b) = a :: splitOnChar sep b := by
  induction a with
  | nil =>
    show splitOnChar sep (sep :: b) = [] :: splitOnChar sep b
    cases hs : splitOnChar sep b with
    | nil => exact absurd hs (splitOnChar_ne_nil sep b)
    | cons g gs =>
      conv_lhs => rw [splitOnChar]
      rw [hs]
      simp
  | cons c rest ih =>
    have hc : c ≠ sep := fun hh => h (hh ▸ List.mem_cons_self _ _)
    have hrest : sep ∉ rest := fun hh => h (List.mem_cons_of_mem _ hh)
    show splitOnChar sep (c :: (rest ++ sep :: b)) = (c :: rest) :: splitOnChar sep b
    conv_lhs => rw [splitOnChar]
    rw [ih hrest]
    simp [hc]

/-! ## Decimal printing round-trips through `int()` -/

theorem digitChar_props (d : Nat) (hd : d < 10) :
    (Char.ofNat (48 + d)).toNat = 48 + d ∧ (Char.ofNat (48 + d)).isDigit = true ∧
    isPySpace (Char.ofNat (48 + d)) = false ∧ Char.ofNat (48 + d) ≠ ',' ∧
    Char.ofNat (48 + d) ≠ '=' ∧ Char.ofNat (48 + d) ≠ '-' ∧
    Char.ofNat (48 + d) ≠ '+' := by
  interval_cases d <;> exact (by decide)

/-- Shape of `natCharsCore`: some nonempty block of digit characters is
prepended to the accumulator. -/
theorem natCharsCore_shape (fuel n : Nat) (acc : PyStr) :
    ∃ ds : PyStr, natCharsCore fuel n acc = ds ++ acc ∧ (0 < fuel → ds ≠ []) ∧
      ∀ c ∈ ds, ∃ d, d < 10 ∧ c = Char.ofNat (48 + d) := by
  induction fuel generalizing n acc with
  | zero => exact ⟨[], rfl, by omega, by simp⟩
  | succ f ih =>
    by_cases h : n < 10
    · refine ⟨[Char.ofNat (48 + n % 10)], ?_, by simp, ?_⟩
      · simp [natCharsCore, h]
      · intro c hc
        simp at hc
        exact ⟨n % 10, by omega, hc⟩
    · obtain ⟨ds, hds, hne, hdig⟩ := ih (n / 10) (Char.ofNat (48 + n % 10) :: acc)
      refine ⟨ds ++ [Char.ofNat (48 + n % 10)], ?_, by simp, ?_⟩
      · simp only [natCharsCore, if_neg h]
        rw [hds]
        simp
      · intro c hc
        rcases List.mem_append.mp hc with hc | hc
        · exact hdig c hc
        · simp at hc
          exact ⟨n % 10, by omega, hc⟩

/-- Value of `natCharsCore` under the digit-accumulating fold of `int()`. -/
theorem natCharsCore_val (fuel : Nat) :
    ∀ (n : Nat) (acc : PyStr) (i : Nat), n < 10 ^ fuel →
      ∃ e : Nat,
        (natCharsCore fuel n acc).foldl (fun m c => m * 10 + (c.toNat - 48)) i =
          acc.foldl (fun m c => m * 10 + (c.toNat - 48)) (i * 10 ^ e + n) := by
  induction fuel with
  | zero =>
    intro n acc i hn
    refine ⟨0, ?_⟩
    have : n = 0 := by simpa using hn
    subst this
    simp [natCharsCore]
  | succ f ih =>
    intro n acc i hn
    by_cases h : n < 10
    · refine ⟨1, ?_⟩
      simp only [natCharsCore, if_pos h, List.foldl_cons]
      have hc : (Char.ofNat (48 + n % 10)).toNat = 48 + n % 10 :=
        (digitChar_props (n % 10) (by omega)).1
      rw [hc]
      have : i * 10 + (48 + n % 10 - 48) = i * 10 ^ 1 + n := by omega
      rw [this]
    · have hdiv : n / 10 < 10 ^ f := by
        rw [pow_succ] at hn
        omega
      obtain ⟨e, he⟩ := ih (n / 10) (Char.ofNat (48 + n % 10) :: acc) i hdiv
      refine ⟨e + 1, ?_⟩
      simp only [natCharsCore, if_neg h]
      rw [he, List.foldl_cons]
      have hc : (Char.ofNat (48 + n % 10)).toNat = 48 + n % 10 :=
        (digitChar_props (n % 10) (by omega)).1
      rw [hc]
      have h1 : 48 + n % 10 - 48 = n % 10 := by omega
      have h2 : n / 10 * 10 + n % 10 = n := by omega
      have h3 : (i * 10 ^ e + n / 10) * 10 + (48 + n % 10 - 48) = i * 10 ^ (e + 1) + n := by
        rw [pow_succ, h1]
        calc (i * 10 ^ e + n / 10) * 10 + n % 10
            = i * (10 ^ e * 10) + (n / 10 * 10 + n % 10) := by ring
          _ = i * (10 ^ e * 10) + n := by rw [h2]
      rw [h3]

theorem natChars_ne_nil (n : Nat) : natChars n ≠ [] := by
  obtain ⟨ds, hds, hne, _⟩ := natCharsCore_shape (n + 1) n []
  unfold natChars
  rw [hds]
  simpa using hne (by omega)

theorem natChars_digits {n : Nat} {c : Char} (hc : c ∈ natChars n) :
    ∃ d, d < 10 ∧ c = Char.ofNat (48 + d) := by
  obtain ⟨ds, hds, _, hdig⟩ := natCharsCore_shape (n + 1) n []
  unfold natChars at hc
  rw [hds] at hc
  exact hdig c (by simpa using hc)

theorem digitsToNat?_natChars (n : Nat) : digitsToNat? (natChars n) = some n := by
  have hall : (natChars n).all Char.isDigit = true := by
    rw [List.all_eq_true]
    intro c hc
    obtain ⟨d, hd, rfl⟩ := natChars_digits hc
    exact (digitChar_props d hd).2.1
  unfold digitsToNat?
  rw [if_pos ⟨natChars_ne_nil n, hall⟩]
  obtain ⟨e, he⟩ := natCharsCore_val (n + 1) n [] 0 (by
    calc n < 10 ^ n := Nat.lt_pow_self (by omega) n
    _ ≤ 10 ^ (n + 1) := Nat.pow_le_pow_right (by omega) (by omega))
  unfold natChars
  rw [he]
  simp

/-- Every character of `intChars i` is a digit or a leading minus sign; in
particular none is whitespace, a comma, an equals sign or a plus sign. -/
theorem intChars_chars {i : Int} {c : Char} (hc : c ∈ intChars i) :
    c = '-' ∨ ∃ d, d < 10 ∧ c = Char.ofNat (48 + d) := by
  unfold intChars at hc
  by_cases h : i < 0
  · rw [if_pos h] at hc
    rcases List.mem_cons.mp hc with hc | hc
    · exact Or.inl hc
    · exact Or.inr (natChars_digits hc)
  · rw [if_neg h] at hc
    exact Or.inr (natChars_digits hc)

theorem intChars_nonspace {i : Int} {c : Char} (hc : c ∈ intChars i) :
    isPySpace c = false := by
  rcases intChars_chars hc with rfl | ⟨d, hd, rfl⟩
  · decide
  · exact (digitChar_props d hd).2.2.1

theorem intChars_no_comma {i : Int} {c : Char} (hc : c ∈ intChars i) : c ≠ ',' := by
  rcases intChars_chars hc with rfl | ⟨d, hd, rfl⟩
  · decide
  · exact (digitChar_props d hd).2.2.2.1

theorem intChars_no_eq {i : Int} {c : Char} (hc : c ∈ intChars i) : c ≠ '=' := by
  rcases intChars_chars hc with rfl | ⟨d, hd, rfl⟩
  · decide
  · exact (digitChar_props d hd).2.2.2.2.1

/-- Evaluation of `pyInt?` on an already-stripped nonempty string. -/
theorem pyInt?_eq (c : Char) (rest : PyStr) (h : pyStrip (c :: rest) = c :: rest) :
    pyInt? (c :: rest) =
      if c = '-' then (digitsToNat? rest).map (fun n => -(n : Int))
      else if c = '+' then (digitsToNat? rest).map (fun n => (n : Int))
      else (digitsToNat? (c :: rest)).map (fun n => (n : Int)) := by
  unfold pyInt?
  rw [h]

/-- `int(str(i)) = i`: the printer round-trips through the `int()` model. -/
theorem pyInt?_intChars (i : Int) : pyInt? (intChars i) = some i := by
  have hstrip0 : pyStrip (intChars i) = intChars i :=
    pyStrip_of_all_nonspace (fun c hc => intChars_nonspace hc)
  by_cases h : i < 0
  · have hichars : intChars i = '-' :: natChars i.natAbs := by
      unfold intChars
      rw [if_pos h]
    rw [hichars]
    rw [pyInt?_eq _ _ (hichars ▸ hstrip0), if_pos rfl, digitsToNat?_natChars]
    have hN : ((i.natAbs : Nat) : Int) = -i := by omega
    simp [hN]
  · have hichars : intChars i = natChars i.toNat := by
      unfold intChars
      rw [if_neg h]
    cases hnc : natChars i.toNat with
    | nil => exact absurd hnc (natChars_ne_nil i.toNat)
    | cons c rest =>
      have hcmem : c ∈ natChars i.toNat := by
        rw [hnc]
        exact List.mem_cons_self _ _
      obtain ⟨d, hd, rfl⟩ := natChars_digits hcmem
      have hstrip : pyStrip (Char.ofNat (48 + d) :: rest) = Char.ofNat (48 + d) :: rest := by
        rw [← hnc, ← hichars]
        exact hstrip0
      rw [hichars, hnc, pyInt?_eq _ _ hstrip,
        if_neg ((digitChar_props d hd).2.2.2.2.2.1),
        if_neg ((digitChar_props d hd).2.2.2.2.2.2), ← hnc, digitsToNat?_natChars]
      have hN : ((i.toNat : Nat) : Int) = i := by omega
      simp [hN]

/-! ## Entry lines round-trip through `parse_entry` -/

theorem entry_line_shape (R C V : Int) :
    ('(' :: intChars R ++ ',' :: ' ' :: intChars C ++ ',' :: ' ' :: intChars V ++ [')'])
      = '(' :: ((intChars R ++ (',' :: ' ' :: (intChars C ++ (',' :: ' ' :: intChars V))))
          ++ [')']) := by
  simp

theorem entry_line_strip (R C V : Int) :
    pyStrip ('(' :: intChars R ++ ',' :: ' ' :: intChars C ++ ',' :: ' ' :: intChars V ++ [')'])
      = '(' :: intChars R ++ ',' :: ' ' :: intChars C ++ ',' :: ' ' :: intChars V ++ [')'] := by
  rw [entry_line_shape]
  exact pyStrip_sandwich _ _ _ (by decide) (by decide)

theorem entry_line_nonblank (R C V : Int) :
    pyStrip ('(' :: intChars R ++ ',' :: ' ' :: intChars C ++ ',' :: ' ' :: intChars V ++ [')'])
      ≠ [] := by
  rw [entry_line_strip]
  simp

theorem parse_entry_serialized (R C V : Int) :
    parse_entry
        ('(' :: intChars R ++ ',' :: ' ' :: intChars C ++ ',' :: ' ' :: intChars V ++ [')'])
      = some (R, C, V) := by
  unfold parse_entry
  rw [entry_line_strip, entry_line_shape]
  have hdrop :
      (('(' :: ((intChars R ++ (',' :: ' ' :: (intChars C ++ (',' :: ' ' :: intChars V))))
          ++ [')'])).drop 1).dropLast
        = intChars R ++ (',' :: ' ' :: (intChars C ++ (',' :: ' ' :: intChars V))) := by
    show ((intChars R ++ (',' :: ' ' :: (intChars C ++ (',' :: ' ' :: intChars V))))
        ++ [')']).dropLast = _
    exact List.dropLast_concat
  rw [hdrop]
  have hsplit :
      splitOnChar ',' (intChars R ++ (',' :: ' ' :: (intChars C ++ (',' :: ' ' :: intChars V))))
        = [intChars R, ' ' :: intChars C, ' ' :: intChars V] := by
    rw [splitOnChar_append_sep _ (fun hh => intChars_no_comma hh rfl)]
    have hshape : (' ' :: (intChars C ++ (',' :: ' ' :: intChars V)))
        = (' ' :: intChars C) ++ ',' :: (' ' :: intChars V) := by simp
    rw [hshape, splitOnChar_append_sep _ ?ha, splitOnChar_of_not_mem ?hb]
    case ha =>
      intro hh
      rcases List.mem_cons.mp hh with hh | hh
      · exact absurd hh (by decide)
      · exact intChars_no_comma hh rfl
    case hb =>
      intro hh
      rcases List.mem_cons.mp hh with hh | hh
      · exact absurd hh (by decide)
      · exact intChars_no_comma hh rfl
  rw [hsplit]
  simp [pyInt?_intChars, pyInt?_space_cons]

/-! ## `parseEntryLines` structure -/

theorem parseEntryLines_cons (mtx : List (Int × List (Int × Int))) (line : PyStr)
    (rest : List PyStr) :
    parseEntryLines mtx (line :: rest) =
      if pyStrip line ≠ [] then
        match parse_entry line with
        | some (r, c, v) => parseEntryLines (setCell mtx r c v) rest
        | none => none
      else parseEntryLines mtx rest := rfl

theorem parseEntryLines_append (mtx : List (Int × List (Int × Int))) (A B : List PyStr) :
    parseEntryLines mtx (A ++ B) =
      (parseEntryLines mtx A).bind (fun m => parseEntryLines m B) := by
  induction A generalizing mtx with
  | nil => simp [parseEntryLines]
  | cons line rest ih =>
    show parseEntryLines mtx (line :: (rest ++ B)) = _
    rw [parseEntryLines_cons, parseEntryLines_cons]
    by_cases hb : pyStrip line ≠ []
    · rw [if_pos hb, if_pos hb]
      cases hpe : parse_entry line with
      | none => simp
      | some t =>
        obtain ⟨r, c, v⟩ := t
        exact ih (setCell mtx r c v)
    · rw [if_neg hb, if_neg hb]
      exact ih mtx

/-- A row's block of serialized entry lines parses to the fold of nested-dict
inserts of that row's bindings. -/
theorem parseEntryLines_row (R : Int) (inner : List (Int × Int))
    (mtx : List (Int × List (Int × Int))) :
    parseEntryLines mtx
        (inner.map (fun q =>
          '(' :: intChars R ++ ',' :: ' ' :: intChars q.1 ++ ',' :: ' ' :: intChars q.2
            ++ [')']))
      = some (inner.foldl (fun m q => setCell m R q.1 q.2) mtx) := by
  induction inner generalizing mtx with
  | nil => rfl
  | cons q rest ih =>
    rw [List.map_cons, List.foldl_cons, parseEntryLines_cons,
      if_pos (entry_line_nonblank R q.1 q.2), parse_entry_serialized]
    exact ih (setCell mtx R q.1 q.2)

/-- The whole entry-line section of a serialized matrix parses to the row-by-row
rebuild fold. -/
theorem parseEntryLines_flat (rows : List (Int × List (Int × Int)))
    (mtx : List (Int × List (Int × Int))) :
    parseEntryLines mtx
        (rows.flatMap (fun p =>
          p.2.map (fun q =>
            '(' :: intChars p.1 ++ ',' :: ' ' :: intChars q.1 ++ ',' :: ' ' :: intChars q.2
              ++ [')'])))
      = some (rows.foldl (fun m p => p.2.foldl (fun m q => setCell m p.1 q.1 q.2) m) mtx) := by
  induction rows generalizing mtx with
  | nil => rfl
  | cons p rest ih =>
    rw [List.flatMap_cons, parseEntryLines_append, parseEntryLines_row, Option.some_bind,
      List.foldl_cons]
    exact ih _

/-! ## Rebuilding the nested dict from its flattened triples -/

theorem some_or {α : Type} (a : α) (o : Option α) : (some a).or o = some a := rfl

/-- Folding one row's inserts only affects that row, and with distinct column
keys it reproduces exactly the row's bindings (earlier bindings fall through
to the accumulator). -/
theorem cellGet_innerFold (R : Int) (inner : List (Int × Int))
    (hN : (inner.map Prod.fst).Nodup) (mtx : List (Int × List (Int × Int))) (r c : Int) :
    cellGet (inner.foldl (fun m q => setCell m R q.1 q.2) mtx) r c =
      if r = R then (alistGet inner c).or (cellGet mtx r c) else cellGet mtx r c := by
  induction inner generalizing mtx with
  | nil =>
    by_cases hr : r = R <;> simp [alistGet, hr]
  | cons q rest ih =>
    rw [List.map_cons, List.nodup_cons] at hN
    rw [List.foldl_cons, ih hN.2, cellGet_setCell]
    by_cases hr : r = R
    · subst hr
      rw [if_pos rfl, if_pos rfl]
      by_cases hc : q.1 = c
      · subst hc
        rw [if_pos ⟨rfl, rfl⟩, alistGet_eq_none_of_not_mem hN.1, Option.none_or]
        show _ = (alistGet (q :: rest) q.1).or _
        have : alistGet (q :: rest) q.1 = some q.2 := by
          show (if q.1 = q.1 then some q.2 else _) = some q.2
          rw [if_pos rfl]
        rw [this, some_or]
      · have hcond : ¬(r = r ∧ q.1 = c) := fun hh => hc hh.2
        rw [if_neg hcond]
        have : alistGet (q :: rest) c = alistGet rest c := by
          show (if q.1 = c then some q.2 else alistGet rest c) = alistGet rest c
          rw [if_neg hc]
        rw [this]
    · rw [if_neg hr, if_neg hr, if_neg (fun hh : R = r ∧ q.1 = c => hr hh.1.symm)]

/-- Folding all rows' inserts into an accumulator: with globally distinct row
keys and per-row distinct column keys, lookups see the original nested dict
first and fall through to the accumulator. -/
theorem cellGet_rebuild (rows : List (Int × List (Int × Int)))
    (hO : (rows.map Prod.fst).Nodup)
    (hI : ∀ p ∈ rows, (p.2.map Prod.fst).Nodup)
    (mtx : List (Int × List (Int × Int))) (r c : Int) :
    cellGet
        (rows.foldl (fun m p => p.2.foldl (fun m q => setCell m p.1 q.1 q.2) m) mtx) r c
      = (cellGet rows r c).or (cellGet mtx r c) := by
  induction rows generalizing mtx with
  | nil => simp [cellGet, alistGet]
  | cons p rest ih =>
    rw [List.map_cons, List.nodup_cons] at hO
    rw [List.foldl_cons, ih hO.2 (fun p' hp' => hI p' (List.mem_cons_of_mem _ hp')),
      cellGet_innerFold _ _ (hI p (List.mem_cons_self _ _))]
    by_cases hr : r = p.1
    · rw [if_pos hr]
      have h1 : cellGet rest r c = none := by
        unfold cellGet
        rw [hr, alistGet_eq_none_of_not_mem hO.1]
        rfl
      have h2 : cellGet (p :: rest) r c = alistGet p.2 c := by
        unfold cellGet
        have hga : alistGet (p :: rest) r = some p.2 := by
          show (if p.1 = r then some p.2 else _) = some p.2
          rw [if_pos hr.symm]
        rw [hga, Option.some_bind]
      rw [h1, Option.none_or, h2]
    · rw [if_neg hr]
      have h2 : cellGet (p :: rest) r c = cellGet rest r c := by
        unfold cellGet
        have hga : alistGet (p :: rest) r = alistGet rest r := by
          show (if p.1 = r then some p.2 else alistGet rest r) = alistGet rest r
          rw [if_neg (fun hh => hr hh.symm)]
        rw [hga]
      rw [h2]

/-! ## Headers round-trip -/

theorem headerValue_serialized (pre : PyStr) (hpre : '=' ∉ pre) (i : Int) :
    headerValue (pre ++ '=' :: intChars i) = some i := by
  unfold headerValue
  rw [splitOnChar_append_sep _ hpre,
    splitOnChar_of_not_mem (fun hh => intChars_no_eq hh rfl)]
  simp [pyInt?_intChars]

/-- Claim C3: for every matrix without duplicate stored keys, parsing the
serialized text reproduces `rows`, `cols` and every in-grid `get_element`
value (in fact the two matrices agree at every position). -/
theorem load_serialize_roundtrip (M : SparseMatrix)
    (hO : (M.matrix.map Prod.fst).Nodup)
    (hI : ∀ p ∈ M.matrix, (p.2.map Prod.fst).Nodup) :
    ∃ M' : SparseMatrix, load_matrix (serialize M) = .ok M' ∧
      M'.numRows = M.numRows ∧ M'.numCols = M.numCols ∧
      ∀ r c : Int, 0 ≤ r → r < M.numRows → 0 ≤ c → c < M.numCols →
        M'.get_element r c = M.get_element r c := by
  refine ⟨⟨M.numRows, M.numCols,
    M.matrix.foldl (fun m p => p.2.foldl (fun m q => setCell m p.1 q.1 q.2) m) []⟩,
    ?_, rfl, rfl, ?_⟩
  · have e0 : (serialize M).getD 0 [] = "rows=".data ++ intChars M.numRows := rfl
    have e1 : (serialize M).getD 1 [] = "cols=".data ++ intChars M.numCols := rfl
    have e2 : (serialize M).drop 2 = M.matrix.flatMap (fun p =>
        p.2.map (fun q =>
          '(' :: intChars p.1 ++ ',' :: ' ' :: intChars q.1 ++ ',' :: ' ' :: intChars q.2
            ++ [')'])) := rfl
    have hr : "rows=".data ++ intChars M.numRows
        = ['r', 'o', 'w', 's'] ++ '=' :: intChars M.numRows := rfl
    have hc : "cols=".data ++ intChars M.numCols
        = ['c', 'o', 'l', 's'] ++ '=' :: intChars M.numCols := rfl
    unfold load_matrix
    rw [e0, e1, hr, hc, headerValue_serialized _ (by decide), headerValue_serialized _ (by decide),
      e2, parseEntryLines_flat]
  · intro r c _ _ _ _
    show (cellGet _ r c).getD 0 = (cellGet M.matrix r c).getD 0
    rw [cellGet_rebuild M.matrix hO hI [] r c]
    have : cellGet [] r c = none := rfl
    rw [this, Option.or_none]

/-- Witness for C3 at a concrete 2×2 matrix with two stored entries. -/
theorem load_serialize_roundtrip_wtn :
    ((([(0, [(0, 5)]), (1, [(1, 7)])] : List (Int × List (Int × Int))).map Prod.fst).Nodup ∧
      ∀ p ∈ ([(0, [(0, 5)]), (1, [(1, 7)])] : List (Int × List (Int × Int))),
        (p.2.map Prod.fst).Nodup) ∧
    ∃ M' : SparseMatrix,
      load_matrix (serialize ⟨2, 2, [(0, [(0, 5)]), (1, [(1, 7)])]⟩) = .ok M' ∧
      M'.numRows = (⟨2, 2, [(0, [(0, 5)]), (1, [(1, 7)])]⟩ : SparseMatrix).numRows ∧
      M'.numCols = (⟨2, 2, [(0, [(0, 5)]), (1, [(1, 7)])]⟩ : SparseMatrix).numCols ∧
      ∀ r c : Int, 0 ≤ r → r < (⟨2, 2, [(0, [(0, 5)]), (1, [(1, 7)])]⟩ : SparseMatrix).numRows →
        0 ≤ c → c < (⟨2, 2, [(0, [(0, 5)]), (1, [(1, 7)])]⟩ : SparseMatrix).numCols →
        M'.get_element r c
          = (⟨2, 2, [(0, [(0, 5)]), (1, [(1, 7)])]⟩ : SparseMatrix).get_element r c :=
  ⟨⟨by decide, by decide⟩,
    load_serialize_roundtrip ⟨2, 2, [(0, [(0, 5)]), (1, [(1, 7)])]⟩ (by decide) (by decide)⟩

/-! ## Failure paths of the parser -/

theorem parseEntryLines_none (lines : List PyStr) (line : PyStr) :
    line ∈ lines → pyStrip line ≠ [] → parse_entry line = none →
    ∀ mtx, parseEntryLines mtx lines = none := by
  induction lines with
  | nil =>
    intro hmem
    simp at hmem
  | cons l rest ih =>
    intro hmem hnb hpe mtx
    rw [parseEntryLines_cons]
    rcases List.mem_cons.mp hmem with heq | hmem'
    · subst heq
      rw [if_pos hnb, hpe]
    · by_cases hb : pyStrip l ≠ []
      · rw [if_pos hb]
        cases hpe' : parse_entry l with
        | none => rfl
        | some t =>
          obtain ⟨r, c, v⟩ := t
          exact ih hmem' hnb hpe _
      · rw [if_neg hb]
        exact ih hmem' hnb hpe _

theorem load_matrix_error_of_bad_entry {lines : List PyStr} {line : PyStr}
    (hmem : line ∈ lines.drop 2) (hnb : pyStrip line ≠ [])
    (hpe : parse_entry line = none) :
    load_matrix lines = .error "Input file has wrong format" := by
  unfold load_matrix
  cases h0 : headerValue (lines.getD 0 []) with
  | none => rfl
  | some rows =>
    cases h1 : headerValue (lines.getD 1 []) with
    | none => rfl
    | some cols =>
      rw [parseEntryLines_none _ _ hmem hnb hpe []]

/-- `parse_entry` as an explicit bind chain. -/
theorem parse_entry_bind (line : PyStr) :
    parse_entry line =
      ((splitOnChar ',' ((pyStrip line).drop 1).dropLast).get? 0).bind (fun t0 =>
        ((splitOnChar ',' ((pyStrip line).drop 1).dropLast).get? 1).bind (fun t1 =>
          ((splitOnChar ',' ((pyStrip line).drop 1).dropLast).get? 2).bind (fun t2 =>
            (pyInt? t0).bind (fun r =>
              (pyInt? t1).bind (fun c =>
                (pyInt? t2).bind (fun v => some (r, c, v))))))) := rfl

/-- The three token extractions of `parse_entry`: if any of the first three
comma-separated pieces is missing or fails `int()`, the entry fails. -/
theorem parse_entry_none_of_bad (line : PyStr)
    (hbad :
      (((splitOnChar ',' ((pyStrip line).drop 1).dropLast).get? 0).bind pyInt? = none) ∨
      (((splitOnChar ',' ((pyStrip line).drop 1).dropLast).get? 1).bind pyInt? = none) ∨
      (((splitOnChar ',' ((pyStrip line).drop 1).dropLast).get? 2).bind pyInt? = none)) :
    parse_entry line = none := by
  rw [parse_entry_bind]
  rcases hbad with h | h | h
  · cases e0 : (splitOnChar ',' ((pyStrip line).drop 1).dropLast).get? 0 with
    | none => rfl
    | some t0 =>
      rw [e0, Option.some_bind] at h
      rw [Option.some_bind]
      cases e1 : (splitOnChar ',' ((pyStrip line).drop 1).dropLast).get? 1 with
      | none => rfl
      | some t1 =>
        rw [Option.some_bind]
        cases e2 : (splitOnChar ',' ((pyStrip line).drop 1).dropLast).get? 2 with
        | none => rfl
        | some t2 =>
          rw [Option.some_bind, h]
          rfl
  · cases e0 : (splitOnChar ',' ((pyStrip line).drop 1).dropLast).get? 0 with
    | none => rfl
    | some t0 =>
      rw [Option.some_bind]
      cases e1 : (splitOnChar ',' ((pyStrip line).drop 1).dropLast).get? 1 with
      | none => rfl
      | some t1 =>
        rw [e1, Option.some_bind] at h
        rw [Option.some_bind]
        cases e2 : (splitOnChar ',' ((pyStrip line).drop 1).dropLast).get? 2 with
        | none => rfl
        | some t2 =>
          rw [Option.some_bind]
          cases ep : pyInt? t0 with
          | none => rfl
          | some r =>
            rw [Option.some_bind, h]
            rfl
  · cases e0 : (splitOnChar ',' ((pyStrip line).drop 1).dropLast).get? 0 with
    | none => rfl
    | some t0 =>
      rw [Option.some_bind]
      cases e1 : (splitOnChar ',' ((pyStrip line).drop 1).dropLast).get? 1 with
      | none => rfl
      | some t1 =>
        rw [Option.some_bind]
        cases e2 : (splitOnChar ',' ((pyStrip line).drop 1).dropLast).get? 2 with
        | none => rfl
        | some t2 =>
          rw [e2, Option.some_bind] at h
          rw [Option.some_bind]
          cases ep : pyInt? t0 with
          | none => rfl
          | some r =>
            rw [Option.some_bind]
            cases eq1 : pyInt? t1 with
            | none => rfl
            | some c =>
              rw [Option.some_bind, h]
              rfl

/-- Claim C6 (amended): with well-formed headers, a non-blank entry line fails
the whole parse if, after stripping whitespace and unconditionally removing
the first and last characters, the comma-split pieces number fewer than three
or one of the first three does not parse as an integer.  (The delimiters
themselves are never inspected — see the counterexample — and extra pieces
beyond the third are ignored.) -/
theorem bad_entry_fails (lines : List PyStr) (line : PyStr)
    (hr : headerValue (lines.getD 0 []) ≠ none)
    (hc : headerValue (lines.getD 1 []) ≠ none)
    (hmem : line ∈ lines.drop 2) (hnb : pyStrip line ≠ [])
    (hbad :
      (((splitOnChar ',' ((pyStrip line).drop 1).dropLast).get? 0).bind pyInt? = none) ∨
      (((splitOnChar ',' ((pyStrip line).drop 1).dropLast).get? 1).bind pyInt? = none) ∨
      (((splitOnChar ',' ((pyStrip line).drop 1).dropLast).get? 2).bind pyInt? = none)) :
    load_matrix lines = .error "Input file has wrong format" :=
  load_matrix_error_of_bad_entry hmem hnb (parse_entry_none_of_bad line hbad)

/-- Witness for the amended C6: the entry line `(0, 0)` has only two tokens
and fails the parse. -/
theorem bad_entry_fails_wtn :
    (headerValue (["rows=1".data, "cols=1".data, "(0, 0)".data].getD 0 []) ≠ none) ∧
    (headerValue (["rows=1".data, "cols=1".data, "(0, 0)".data].getD 1 []) ≠ none) ∧
    "(0, 0)".data ∈ ["rows=1".data, "cols=1".data, "(0, 0)".data].drop 2 ∧
    pyStrip "(0, 0)".data ≠ [] ∧
    (((splitOnChar ',' ((pyStrip "(0, 0)".data).drop 1).dropLast).get? 2).bind pyInt?
      = none) ∧
    load_matrix ["rows=1".data, "cols=1".data, "(0, 0)".data]
      = .error "Input file has wrong format" :=
  ⟨by decide, by decide, by decide, by decide, by decide,
    bad_entry_fails ["rows=1".data, "cols=1".data, "(0, 0)".data] "(0, 0)".data
      (by decide) (by decide) (by decide) (by decide) (Or.inr (Or.inr (by decide)))⟩

/-- Counterexample to Claim C6 as stated: an entry line delimited by `[` and
`]` instead of parentheses — and another one with four tokens — both parse
successfully, because `parse_entry` blindly removes the first and last
characters and ignores pieces beyond the third. -/
theorem bad_delimiters_accepted :
    load_matrix ["rows=1".data, "cols=1".data, "[0, 0, 5]".data]
      = .ok ⟨1, 1, [(0, [(0, 5)])]⟩ ∧
    "[0, 0, 5]".data.head? = some '[' ∧
    load_matrix ["rows=1".data, "cols=1".data, "(0, 0, 5, 9)".data]
      = .ok ⟨1, 1, [(0, [(0, 5)])]⟩ :=
  ⟨rfl, rfl, rfl⟩

/-- Claim C7 (amended): `load_matrix` fails on the second line precisely for
the reasons `int(line.split('=')[1])` can fail — no segment after a first
`=`, or that segment not parsing as an integer.  The literal prefix before
the `=` is never compared against `cols`. -/
theorem second_header_fails (lines : List PyStr)
    (h : ((splitOnChar '=' (lines.getD 1 [])).get? 1).bind pyInt? = none) :
    load_matrix lines = .error "Input file has wrong format" := by
  have hh : headerValue (lines.getD 1 []) = none := h
  unfold load_matrix
  cases h0 : headerValue (lines.getD 0 []) with
  | none => rfl
  | some rows => rw [hh]

/-- Witness for the amended C7: a second line with no `=` fails the parse. -/
theorem second_header_fails_wtn :
    (((splitOnChar '=' (["rows=1".data, "cols".data].getD 1 [])).get? 1).bind pyInt?
      = none) ∧
    load_matrix ["rows=1".data, "cols".data] = .error "Input file has wrong format" :=
  ⟨by decide, second_header_fails ["rows=1".data, "cols".data] (by decide)⟩

/-- Counterexample to Claim C7 as stated: the second line `x=3` is not
prefixed with `cols=`, yet the parse succeeds and takes `3` as the column
count. -/
theorem cols_prefix_ignored :
    "x=3".data.take 5 ≠ "cols=".data ∧
    load_matrix ["rows=2".data, "x=3".data] = .ok ⟨2, 3, []⟩ :=
  ⟨by decide, rfl⟩

/-! ## Non-integer value tokens -/

theorem mem_pyStrip {c : Char} {l : PyStr} (hc : c ∈ l) (hns : isPySpace c = false) :
    c ∈ pyStrip l := by
  have h1 : c ∈ l.dropWhile isPySpace := by
    have hsplit : c ∈ l.takeWhile isPySpace ++ l.dropWhile isPySpace := by
      rw [List.takeWhile_append_dropWhile]
      exact hc
    rcases List.mem_append.mp hsplit with h | h
    · have := List.mem_takeWhile_imp h
      rw [hns] at this
      cases this
    · exact h
  have h2 : c ∈ (l.dropWhile isPySpace).reverse := by simpa using h1
  have h3 : c ∈ (l.dropWhile isPySpace).reverse.dropWhile isPySpace := by
    have hsplit : c ∈ (l.dropWhile isPySpace).reverse.takeWhile isPySpace ++
        (l.dropWhile isPySpace).reverse.dropWhile isPySpace := by
      rw [List.takeWhile_append_dropWhile]
      exact h2
    rcases List.mem_append.mp hsplit with h | h
    · have := List.mem_takeWhile_imp h
      rw [hns] at this
      cases this
    · exact h
  unfold pyStrip
  simpa using h3

/-- Evaluation of `pyInt?` through a known result of the strip. -/
theorem pyInt?_strip_cons {s : PyStr} {c : Char} {rest : PyStr}
    (hs : pyStrip s = c :: rest) :
    pyInt? s =
      if c = '-' then (digitsToNat? rest).map (fun n => -(n : Int))
      else if c = '+' then (digitsToNat? rest).map (fun n => (n : Int))
      else (digitsToNat? (c :: rest)).map (fun n => (n : Int)) := by
  unfold pyInt?
  rw [hs]

theorem pyInt?_none_of_dot {t : PyStr} (hdot : '.' ∈ t) : pyInt? t = none := by
  have hdig : ∀ l : PyStr, '.' ∈ l → digitsToNat? l = none := by
    intro l hl
    unfold digitsToNat?
    rw [if_neg]
    rintro ⟨hne, hall⟩
    have := List.all_eq_true.mp hall '.' hl
    exact absurd this (by decide)
  have hmem : '.' ∈ pyStrip t := mem_pyStrip hdot (by decide)
  cases hs : pyStrip t with
  | nil =>
    rw [hs] at hmem
    cases hmem
  | cons c rest =>
    rw [hs] at hmem
    rw [pyInt?_strip_cons hs]
    rcases List.mem_cons.mp hmem with hh | hh
    · rw [if_neg (show ¬(c = '-') by rw [← hh]; decide),
        if_neg (show ¬(c = '+') by rw [← hh]; decide),
        hdig _ (by rw [← hh]; exact List.mem_cons_self _ _)]
      rfl
    · by_cases h1 : c = '-'
      · rw [if_pos h1, hdig rest hh]
        rfl
      · by_cases h2 : c = '+'
        · rw [if_neg h1, if_pos h2, hdig rest hh]
          rfl
        · rw [if_neg h1, if_neg h2, hdig _ (List.mem_cons_of_mem _ hh)]
          rfl

/-- Claim C10: all three entry tokens go through `int()`; a value token that
is a non-integer numeric literal (it contains a `.`, e.g. `3.5`) fails the
whole parse — only integer-valued matrices can be loaded. -/
theorem float_value_fails (lines : List PyStr) (line : PyStr) (t : PyStr)
    (hr : headerValue (lines.getD 0 []) ≠ none)
    (hc : headerValue (lines.getD 1 []) ≠ none)
    (hmem : line ∈ lines.drop 2) (hnb : pyStrip line ≠ [])
    (ht : (splitOnChar ',' ((pyStrip line).drop 1).dropLast).get? 2 = some t)
    (hdot : '.' ∈ t) :
    load_matrix lines = .error "Input file has wrong format" := by
  refine load_matrix_error_of_bad_entry hmem hnb (parse_entry_none_of_bad line ?_)
  refine Or.inr (Or.inr ?_)
  rw [ht, Option.some_bind, pyInt?_none_of_dot hdot]

/-- Witness for C10: the entry line `(0, 0, 3.5)` fails the parse. -/
theorem float_value_fails_wtn :
    (headerValue (["rows=1".data, "cols=1".data, "(0, 0, 3.5)".data].getD 0 []) ≠ none) ∧
    ((splitOnChar ','
        ((pyStrip "(0, 0, 3.5)".data).drop 1).dropLast).get? 2 = some " 3.5".data) ∧
    ('.' ∈ " 3.5".data) ∧
    load_matrix ["rows=1".data, "cols=1".data, "(0, 0, 3.5)".data]
      = .error "Input file has wrong format" :=
  ⟨by decide, by decide, by decide,
    float_value_fails ["rows=1".data, "cols=1".data, "(0, 0, 3.5)".data]
      "(0, 0, 3.5)".data " 3.5".data (by decide) (by decide) (by decide) (by decide)
      (by decide) (by decide)⟩

end SparseSpec
